import Mathlib

/-!
Verification development for the SignalWire reporting repository's
sync/reconciliation engine (sync_logs.py, tasks.py, app.py, models.py).

The data model and operations are shallowly embedded: timestamps are
abstract integer instants, message bodies are lists of characters
(Python code points), prices are integers (a fixed-point reading of the
float values; only absolute value, sign and defaulting behaviour of the
source are relevant), and the SQL table keyed by message id is a
function from ids to optional rows.
-/

/-- A raw date string as the remote API delivers it, classified by which
parser in the source accepts it: `rfc` is the RFC-2822-like format
("Mon, 25 Nov 2024 12:34:56 +0000"), `iso` is ISO-8601, `bad` is a
non-empty string neither parser accepts, `missing` is an absent or empty
value (falsy in Python). The carried integer is the instant the
successful parse would produce. -/
inductive RawDate where
  | missing : RawDate
  | rfc : Int → RawDate
  | iso : Int → RawDate
  | bad : RawDate
deriving DecidableEq

/-- A raw numeric field (price or error code) as delivered by the
remote API: absent/falsy, present but malformed (the Python conversion
raises), or a parsed value. -/
inductive RawNum where
  | missing : RawNum
  | malformed : RawNum
  | num : Int → RawNum
deriving DecidableEq

/-- A persisted SMS log row, and equally an upsert record
(models.SMSLog and the record dicts built in sync_logs.py, tasks.py and
app.py share this shape). -/
structure Rec where
  id : String
  date_created : Option Int
  date_sent : Option Int
  to_number : Option String
  from_number : Option String
  status : Option String
  error_code : Option Int
  error_message : Option String
  direction : Option String
  price : Int
  body : Option (List Char)
deriving DecidableEq

/-- The sms_logs table, keyed by the primary-key id column. -/
def Store : Type := String → Option Rec

/-- The ON CONFLICT DO UPDATE set of save_batch (sync_logs.py):
status, error_code, error_message, date_sent, price. -/
def sbMerge (old r : Rec) : Rec :=
  { old with status := r.status, error_code := r.error_code,
             error_message := r.error_message, date_sent := r.date_sent,
             price := r.price }

/-- The ON CONFLICT DO UPDATE set of bulk_upsert (tasks.py):
status, error_code, error_message, price — date_sent is not updated. -/
def buMerge (old r : Rec) : Rec :=
  { old with status := r.status, error_code := r.error_code,
             error_message := r.error_message, price := r.price }

/-- One record of an INSERT ... ON CONFLICT DO UPDATE: a fresh row is
inserted verbatim, an existing row is merged by the given set clause. -/
def mergeOpt (mg : Rec → Rec → Rec) : Option Rec → Rec → Rec
  | some old, r => mg old r
  | none, r => r

/-- Effect of upserting a single record on the table. -/
def upsertStep (mg : Rec → Rec → Rec) (s : Store) (r : Rec) : Store :=
  fun i => if i = r.id then some (mergeOpt mg (s r.id) r) else s i

/-- Effect of a bulk upsert of a batch, records applied in order. -/
def upsertStore (mg : Rec → Rec → Rec) (batch : List Rec) (s : Store) : Store :=
  batch.foldl (upsertStep mg) s

/-- save_batch (sync_logs.py lines 314-340) as a store transformer. -/
def save_batch_store : List Rec → Store → Store := upsertStore sbMerge

/-- bulk_upsert (tasks.py lines 180-198) as a store transformer. -/
def bulk_upsert_store : List Rec → Store → Store := upsertStore buMerge

/-- The per-cell effect of upserting one record, seen from a fixed id. -/
def stepAt (mg : Rec → Rec → Rec) (i : String) (o : Option Rec) (r : Rec) :
    Option Rec :=
  if i = r.id then some (mergeOpt mg o r) else o

/-- Chain of unconditional merges (the records already known to hit id i). -/
def applyM (mg : Rec → Rec → Rec) (o : Option Rec) (ms : List Rec) : Option Rec :=
  ms.foldl (fun o r => some (mergeOpt mg o r)) o

/-- The records of a batch aimed at a given id, in batch order. -/
def matchesOf (l : List Rec) (i : String) : List Rec :=
  l.filter (fun r => decide (i = r.id))

/-- The last element of the non-empty list m :: tl. -/
def lastOf (m : Rec) (tl : List Rec) : Rec :=
  match tl with
  | [] => m
  | r :: t => lastOf r t

lemma upsertStore_cell (mg : Rec → Rec → Rec) (l : List Rec) (s : Store)
    (i : String) :
    upsertStore mg l s i = l.foldl (stepAt mg i) (s i) := by
  induction l generalizing s with
  | nil => rfl
  | cons r t ih =>
    have hcell : upsertStep mg s r i = stepAt mg i (s i) r := by
      by_cases h : i = r.id
      · subst h
        simp [upsertStep, stepAt]
      · simp [upsertStep, stepAt, h]
    show upsertStore mg t (upsertStep mg s r) i = _
    rw [ih (upsertStep mg s r), hcell]
    rfl

lemma foldl_stepAt_matches (mg : Rec → Rec → Rec) (i : String) (l : List Rec)
    (o : Option Rec) :
    l.foldl (stepAt mg i) o = applyM mg o (matchesOf l i) := by
  induction l generalizing o with
  | nil => rfl
  | cons r t ih =>
    by_cases h : i = r.id
    · have h1 : (r :: t).foldl (stepAt mg i) o
          = t.foldl (stepAt mg i) (some (mergeOpt mg o r)) := by
        simp [stepAt, h]
      have h2 : matchesOf (r :: t) i = r :: matchesOf t i := by
        simp [matchesOf, h]
      rw [h1, h2]
      show _ = applyM mg (some (mergeOpt mg o r)) (matchesOf t i)
      exact ih _
    · have h1 : (r :: t).foldl (stepAt mg i) o = t.foldl (stepAt mg i) o := by
        simp [stepAt, h]
      have h2 : matchesOf (r :: t) i = matchesOf t i := by
        simp [matchesOf, h]
      rw [h1, h2]
      exact ih _

lemma upsertStore_cell_matches (mg : Rec → Rec → Rec) (l : List Rec) (s : Store)
    (i : String) :
    upsertStore mg l s i = applyM mg (s i) (matchesOf l i) := by
  rw [upsertStore_cell, foldl_stepAt_matches]

lemma applyM_some (mg : Rec → Rec → Rec) :
    ∀ (ms : List Rec) (x : Rec), ∃ y, applyM mg (some x) ms = some y := by
  intro ms
  induction ms with
  | nil => exact fun x => ⟨x, rfl⟩
  | cons m t ih =>
    intro x
    show ∃ y, applyM mg (some (mg x m)) t = some y
    exact ih (mg x m)

lemma applyM_pres {α : Type} (mg : Rec → Rec → Rec) (f : Rec → α)
    (Hf : ∀ old r, f (mg old r) = f old) :
    ∀ (ms : List Rec) (x y : Rec), applyM mg (some x) ms = some y → f y = f x := by
  intro ms
  induction ms with
  | nil =>
    intro x y h
    simp only [applyM, List.foldl_nil, Option.some.injEq] at h
    rw [h]
  | cons m t ih =>
    intro x y h
    have : applyM mg (some (mg x m)) t = some y := h
    rw [ih (mg x m) y this, Hf]

lemma applyM_last {β : Type} (mg : Rec → Rec → Rec) (g : Rec → β)
    (Hg : ∀ old r, g (mg old r) = g r) :
    ∀ (tl : List Rec) (m : Rec) (o : Option Rec) (y : Rec),
      applyM mg o (m :: tl) = some y → g y = g (lastOf m tl) := by
  intro tl
  induction tl with
  | nil =>
    intro m o y h
    simp only [applyM, List.foldl_cons, List.foldl_nil, Option.some.injEq] at h
    subst h
    cases o with
    | none => rfl
    | some old => exact Hg old m
  | cons r t ih =>
    intro m o y h
    have : applyM mg (some (mergeOpt mg o m)) (r :: t) = some y := h
    exact ih r (some (mergeOpt mg o m)) y this

/-- The immutable columns under the save_batch merge. -/
def immutSB (r : Rec) :
    String × Option Int × Option String × Option String × Option String ×
      Option (List Char) :=
  (r.id, r.date_created, r.to_number, r.from_number, r.direction, r.body)

/-- The columns the save_batch merge overwrites. -/
def mutSB (r : Rec) :
    Option String × Option Int × Option String × Option Int × Int :=
  (r.status, r.error_code, r.error_message, r.date_sent, r.price)

lemma sbMerge_immut (old r : Rec) : immutSB (sbMerge old r) = immutSB old := rfl

lemma sbMerge_mut (old r : Rec) : mutSB (sbMerge old r) = mutSB r := rfl

lemma rec_ext_sb (a b : Rec) (h1 : immutSB a = immutSB b)
    (h2 : mutSB a = mutSB b) : a = b := by
  cases a
  cases b
  simp only [immutSB, mutSB, Prod.mk.injEq] at h1 h2
  obtain ⟨e1, e2, e3, e4, e5, e6⟩ := h1
  obtain ⟨f1, f2, f3, f4, f5⟩ := h2
  subst_vars
  rfl

lemma applyM_sb_idem :
    ∀ (ms : List Rec) (o : Option Rec),
      applyM sbMerge (applyM sbMerge o ms) ms = applyM sbMerge o ms := by
  intro ms o
  cases ms with
  | nil => rfl
  | cons m tl =>
    have h1 : applyM sbMerge o (m :: tl)
        = applyM sbMerge (some (mergeOpt sbMerge o m)) tl := rfl
    obtain ⟨y, hy⟩ := applyM_some sbMerge tl (mergeOpt sbMerge o m)
    have hy' : applyM sbMerge o (m :: tl) = some y := by rw [h1, hy]
    rw [hy']
    obtain ⟨y', hy2⟩ := applyM_some sbMerge tl (sbMerge y m)
    have hy2' : applyM sbMerge (some y) (m :: tl) = some y' := hy2
    rw [hy2']
    have himm : immutSB y' = immutSB y := applyM_pres sbMerge immutSB sbMerge_immut _ y y' hy2'
    have hm1 : mutSB y = mutSB (lastOf m tl) :=
      applyM_last sbMerge mutSB sbMerge_mut tl m o y hy'
    have hm2 : mutSB y' = mutSB (lastOf m tl) :=
      applyM_last sbMerge mutSB sbMerge_mut tl m (some y) y' hy2'
    rw [rec_ext_sb y' y himm (hm1 ▸ hm2)]

/-- The columns the bulk_upsert merge leaves untouched (date_sent included,
unlike save_batch). -/
def immutBU (r : Rec) :
    String × Option Int × Option Int × Option String × Option String ×
      Option String × Option (List Char) :=
  (r.id, r.date_created, r.date_sent, r.to_number, r.from_number, r.direction,
    r.body)

/-- The columns the bulk_upsert merge overwrites. -/
def mutBU (r : Rec) : Option String × Option Int × Option String × Int :=
  (r.status, r.error_code, r.error_message, r.price)

lemma buMerge_immut (old r : Rec) : immutBU (buMerge old r) = immutBU old := rfl

lemma buMerge_mut (old r : Rec) : mutBU (buMerge old r) = mutBU r := rfl

/-- A pre-existing row used in concrete upsert scenarios. -/
def wOld : Rec :=
  { id := "m1", date_created := some 1, date_sent := some 5,
    to_number := some "+15550001111", from_number := some "+15550002222",
    status := some "queued", error_code := none, error_message := none,
    direction := some "outbound-api", price := 0, body := some ['h', 'i'] }

/-- An incoming record with the same id and different mutable fields. -/
def wRec : Rec :=
  { id := "m1", date_created := some 2, date_sent := some 9,
    to_number := none, from_number := none, status := some "delivered",
    error_code := some 30008, error_message := some "err", direction := none,
    price := 3, body := none }

/-- A one-row store holding wOld under its id. -/
def wStore : Store := fun j => if j = "m1" then some wOld else none

/-- C1 counterexample: the claim says the upsert store (citing both
save_batch and bulk_upsert) updates exactly the set containing date_sent on
primary-key conflict, but bulk_upsert (tasks.py) leaves date_sent at the
pre-existing row's value: here the stored row keeps date_sent = some 5
although the incoming record carries date_sent = some 9. -/
theorem C1_counterexample :
    bulk_upsert_store [wRec] wStore "m1" = some (buMerge wOld wRec) ∧
    (buMerge wOld wRec).date_sent = some 5 ∧
    wRec.date_sent = some 9 ∧
    ¬ (buMerge wOld wRec).date_sent = wRec.date_sent :=
  ⟨rfl, rfl, rfl, by decide⟩

/-- C1 (amended): for every batch and every pre-existing row whose id
matches, save_batch updates exactly status, error_code, error_message,
date_sent, price to the last matching record's values and leaves id,
date_created, to_number, from_number, direction, body untouched;
bulk_upsert updates exactly status, error_code, error_message, price and
additionally leaves date_sent untouched. -/
theorem C1_upsert_frame (batch : List Rec) (s : Store) (i : String)
    (old : Rec) (h : s i = some old) :
    (∀ new, save_batch_store batch s i = some new →
      (new.id = old.id ∧ new.date_created = old.date_created ∧
        new.to_number = old.to_number ∧ new.from_number = old.from_number ∧
        new.direction = old.direction ∧ new.body = old.body) ∧
      (matchesOf batch i = [] → new = old) ∧
      (∀ m tl, matchesOf batch i = m :: tl →
        new.status = (lastOf m tl).status ∧
        new.error_code = (lastOf m tl).error_code ∧
        new.error_message = (lastOf m tl).error_message ∧
        new.date_sent = (lastOf m tl).date_sent ∧
        new.price = (lastOf m tl).price)) ∧
    (∀ new, bulk_upsert_store batch s i = some new →
      (new.id = old.id ∧ new.date_created = old.date_created ∧
        new.date_sent = old.date_sent ∧ new.to_number = old.to_number ∧
        new.from_number = old.from_number ∧ new.direction = old.direction ∧
        new.body = old.body) ∧
      (∀ m tl, matchesOf batch i = m :: tl →
        new.status = (lastOf m tl).status ∧
        new.error_code = (lastOf m tl).error_code ∧
        new.error_message = (lastOf m tl).error_message ∧
        new.price = (lastOf m tl).price)) := by
  constructor
  · intro new hnew
    have hc : applyM sbMerge (some old) (matchesOf batch i) = some new := by
      have hus : upsertStore sbMerge batch s i = some new := hnew
      rw [upsertStore_cell_matches, h] at hus
      exact hus
    have himm : immutSB new = immutSB old :=
      applyM_pres sbMerge immutSB sbMerge_immut _ old new hc
    simp only [immutSB, Prod.mk.injEq] at himm
    refine ⟨⟨himm.1, himm.2.1, himm.2.2.1, himm.2.2.2.1, himm.2.2.2.2.1,
      himm.2.2.2.2.2⟩, ?_, ?_⟩
    · intro hm
      rw [hm] at hc
      have : some old = some new := hc
      injection this with this
      rw [this]
    · intro m tl hm
      rw [hm] at hc
      have hmut : mutSB new = mutSB (lastOf m tl) :=
        applyM_last sbMerge mutSB sbMerge_mut tl m (some old) new hc
      simp only [mutSB, Prod.mk.injEq] at hmut
      exact ⟨hmut.1, hmut.2.1, hmut.2.2.1, hmut.2.2.2.1, hmut.2.2.2.2⟩
  · intro new hnew
    have hc : applyM buMerge (some old) (matchesOf batch i) = some new := by
      have hus : upsertStore buMerge batch s i = some new := hnew
      rw [upsertStore_cell_matches, h] at hus
      exact hus
    have himm : immutBU new = immutBU old :=
      applyM_pres buMerge immutBU buMerge_immut _ old new hc
    simp only [immutBU, Prod.mk.injEq] at himm
    refine ⟨⟨himm.1, himm.2.1, himm.2.2.1, himm.2.2.2.1, himm.2.2.2.2.1,
      himm.2.2.2.2.2.1, himm.2.2.2.2.2.2⟩, ?_⟩
    intro m tl hm
    rw [hm] at hc
    have hmut : mutBU new = mutBU (lastOf m tl) :=
      applyM_last buMerge mutBU buMerge_mut tl m (some old) new hc
    simp only [mutBU, Prod.mk.injEq] at hmut
    exact ⟨hmut.1, hmut.2.1, hmut.2.2.1, hmut.2.2.2⟩

/-- C1 witness: the amended theorem applied to a concrete one-record batch
against a concrete one-row store. -/
theorem C1_upsert_frame_witness :
    (sbMerge wOld wRec).body = wOld.body ∧
    (sbMerge wOld wRec).date_sent = wRec.date_sent ∧
    (buMerge wOld wRec).date_sent = wOld.date_sent := by
  have H := C1_upsert_frame [wRec] wStore "m1" wOld rfl
  have h1 : save_batch_store [wRec] wStore "m1" = some (sbMerge wOld wRec) := rfl
  have h2 : bulk_upsert_store [wRec] wStore "m1" = some (buMerge wOld wRec) := rfl
  have hm : matchesOf [wRec] "m1" = wRec :: [] := rfl
  obtain ⟨Ha, Hb⟩ := H
  obtain ⟨hImm, -, hMut⟩ := Ha _ h1
  obtain ⟨hImmB, -⟩ := Hb _ h2
  exact ⟨hImm.2.2.2.2.2, (hMut wRec [] hm).2.2.2.1, hImmB.2.2.1⟩

/-- C2: upserting the same batch twice through save_batch yields a stored
state identical, cell for cell, to upserting it once, for every batch
and every starting store state. -/
theorem C2_upsert_idempotent (batch : List Rec) (s : Store) (i : String) :
    save_batch_store batch (save_batch_store batch s) i
      = save_batch_store batch s i := by
  simp only [save_batch_store]
  rw [upsertStore_cell_matches, upsertStore_cell_matches]
  exact applyM_sb_idem (matchesOf batch i) (s i)

/-- A raw message object as the remote Messages.json API returns it. -/
structure RawMsg where
  sid : String
  date_created : RawDate
  date_sent : RawDate
  to_num : Option String
  from_num : Option String
  status : Option String
  error_code : RawNum
  error_message : Option String
  direction : Option String
  price : RawNum
  body : Option (List Char)
deriving DecidableEq

/-- One JSON page: message list plus optional continuation token. -/
structure Page where
  messages : List RawMsg
  next_page_uri : Option String
deriving DecidableEq

/-- trigger_sync's hard page cap (app.py: max_pages = 5000). -/
def max_pages : Nat := 5000

/-- State of trigger_sync's fetch loop: fetch calls made, page counter,
accumulated messages. -/
structure TrigSt where
  fetches : Nat
  pages : Nat
  msgs : List RawMsg
deriving DecidableEq

/-- The fetch/pagination loop of trigger_sync (app.py lines 621-647).
The source function gives the page each successive fetch returns; the
while condition page_count < max_pages is modelled by the fuel argument,
which equals max_pages minus the page counter throughout (an iteration
that does not raise the page counter breaks out of the loop). -/
def trigLoop (src : Nat → Page) : Nat → TrigSt → TrigSt
  | 0, st => st
  | fuel + 1, st =>
    let d := src st.fetches
    let st1 : TrigSt := { st with fetches := st.fetches + 1 }
    if d.messages.isEmpty then st1
    else
      let st2 : TrigSt :=
        { st1 with pages := st1.pages + 1, msgs := st1.msgs ++ d.messages }
      match d.next_page_uri with
      | none => st2
      | some _ => trigLoop src fuel st2

/-- The whole fetch phase of trigger_sync. -/
def trigger_sync_fetch (src : Nat → Page) : TrigSt :=
  trigLoop src max_pages { fetches := 0, pages := 0, msgs := [] }

/-- hit_limit as trigger_sync computes it (page_count >= max_pages). -/
def trigger_hit_limit (src : Nat → Page) : Bool :=
  decide (max_pages ≤ (trigger_sync_fetch src).pages)

lemma trigLoop_le (src : Nat → Page) :
    ∀ (fuel : Nat) (st : TrigSt),
      (trigLoop src fuel st).pages ≤ st.pages + fuel ∧
      (trigLoop src fuel st).fetches ≤ st.fetches + fuel := by
  intro fuel
  induction fuel with
  | zero => intro st; exact ⟨Nat.le_refl _, Nat.le_refl _⟩
  | succ f ih =>
    intro st
    simp only [trigLoop]
    by_cases h : (src st.fetches).messages.isEmpty
    · rw [if_pos h]
      exact ⟨Nat.le_add_right _ _,
        show st.fetches + 1 ≤ st.fetches + (f + 1) by omega⟩
    · rw [if_neg h]
      cases hn : (src st.fetches).next_page_uri with
      | none =>
        exact ⟨show st.pages + 1 ≤ st.pages + (f + 1) by omega,
          show st.fetches + 1 ≤ st.fetches + (f + 1) by omega⟩
      | some u =>
        have H := ih ⟨st.fetches + 1, st.pages + 1,
          st.msgs ++ (src st.fetches).messages⟩
        exact ⟨Nat.le_trans H.1
            (show st.pages + 1 + f ≤ st.pages + (f + 1) by omega),
          Nat.le_trans H.2
            (show st.fetches + 1 + f ≤ st.fetches + (f + 1) by omega)⟩

lemma trigLoop_exact (src : Nat → Page)
    (hsrc : ∀ n, (src n).messages ≠ [] ∧ (src n).next_page_uri ≠ none) :
    ∀ (fuel : Nat) (st : TrigSt), (trigLoop src fuel st).pages = st.pages + fuel := by
  intro fuel
  induction fuel with
  | zero => intro st; rfl
  | succ f ih =>
    intro st
    have hne : ¬ (src st.fetches).messages.isEmpty = true := by
      simp only [List.isEmpty_iff]
      exact fun hc => (hsrc st.fetches).1 hc
    simp only [trigLoop]
    rw [if_neg hne]
    cases hn : (src st.fetches).next_page_uri with
    | none => exact absurd hn (hsrc st.fetches).2
    | some u =>
      have H := ih ⟨st.fetches + 1, st.pages + 1,
        st.msgs ++ (src st.fetches).messages⟩
      rw [H]
      show st.pages + 1 + f = st.pages + (f + 1)
      omega

/-- C3: the dashboard-triggered sync performs at most max_pages = 5000
fetches and accumulates at most 5000 pages; when the source returns a
non-empty page with a non-null continuation token on every fetch, the
loop stops exactly at the cap and the hit-limit flag reported to the
caller is true. -/
theorem C3_page_cap (src : Nat → Page) :
    (trigger_sync_fetch src).pages ≤ max_pages ∧
    (trigger_sync_fetch src).fetches ≤ max_pages ∧
    ((∀ n, (src n).messages ≠ [] ∧ (src n).next_page_uri ≠ none) →
      (trigger_sync_fetch src).pages = max_pages ∧
        trigger_hit_limit src = true) := by
  refine ⟨?_, ?_, ?_⟩
  · have := (trigLoop_le src max_pages { fetches := 0, pages := 0, msgs := [] }).1
    simpa [trigger_sync_fetch] using this
  · have := (trigLoop_le src max_pages { fetches := 0, pages := 0, msgs := [] }).2
    simpa [trigger_sync_fetch] using this
  · intro hsrc
    have hp : (trigger_sync_fetch src).pages = max_pages := by
      have := trigLoop_exact src hsrc max_pages { fetches := 0, pages := 0, msgs := [] }
      simpa [trigger_sync_fetch] using this
    exact ⟨hp, by simp [trigger_hit_limit, hp]⟩

/-- A message every page of the endless witness source carries. -/
def wMsg : RawMsg :=
  { sid := "mw", date_created := RawDate.rfc 100, date_sent := RawDate.missing,
    to_num := none, from_num := none, status := some "sent",
    error_code := RawNum.missing, error_message := none,
    direction := some "outbound-api", price := RawNum.missing, body := none }

/-- A source that returns a continuation token on every page. -/
def wSrc : Nat → Page := fun _ => { messages := [wMsg], next_page_uri := some "p" }

/-- C3 witness: on the endless source, the loop stops at 5000 pages and
reports hit_limit = true. -/
theorem C3_page_cap_witness :
    (trigger_sync_fetch wSrc).pages = max_pages ∧ trigger_hit_limit wSrc = true :=
  (C3_page_cap wSrc).2.2 (fun _ => ⟨by simp [wSrc], by simp [wSrc]⟩)

/-- parse_signalwire_date (sync_logs.py lines 116-129): an absent or empty
string gives None; then the RFC-2822-like parser is tried, then the
ISO-8601 fallback, and a string neither accepts gives None. -/
def parse_signalwire_date : RawDate → Option Int
  | RawDate.missing => none
  | RawDate.rfc t => some t
  | RawDate.iso t => some t
  | RawDate.bad => none

/-- Error-code normalization of sync_messages (lines 248-253):
try int(...) with failures swallowed, leaving None. -/
def errorCodeOf : RawNum → Option Int
  | RawNum.num v => some v
  | _ => none

/-- Price normalization of sync_messages (lines 256-261): a falsy price
leaves 0, a malformed one is swallowed leaving 0, and a parsed value is
coerced to its absolute value. -/
def priceOf : RawNum → Int
  | RawNum.num v => |v|
  | _ => 0

/-- The body cap of sync_messages (line 275). -/
def max_body_length : Nat := 500

/-- Body normalization of sync_messages (line 275): a falsy body (absent
or empty) gives None, otherwise the first 500 characters. -/
def bodyNorm : Option (List Char) → Option (List Char)
  | none => none
  | some cs => if cs.isEmpty then none else some (cs.take max_body_length)

/-- The upsert record sync_messages builds from a fetched message
(lines 264-276), given the two parsed dates. -/
def mkSyncRec (m : RawMsg) (dc ds : Option Int) : Rec :=
  { id := m.sid, date_created := dc, date_sent := ds, to_number := m.to_num,
    from_number := m.from_num, status := m.status,
    error_code := errorCodeOf m.error_code, error_message := m.error_message,
    direction := m.direction, price := priceOf m.price, body := bodyNorm m.body }

/-- Per-message processing of sync_messages (lines 227-277): parse the two
dates; when date_created parsed and falls strictly before the requested
start instant the message is dropped (continue); otherwise it counts as
fetched and the upsert record is built. -/
def processMsg (start : Int) (m : RawMsg) : Option Rec :=
  let ds := parse_signalwire_date m.date_sent
  match parse_signalwire_date m.date_created with
  | some d => if d < start then none else some (mkSyncRec m (some d) ds)
  | none => some (mkSyncRec m none ds)

lemma processMsg_eq (start : Int) (m : RawMsg) (r : Rec)
    (h : processMsg start m = some r) :
    r = mkSyncRec m (parse_signalwire_date m.date_created)
        (parse_signalwire_date m.date_sent) := by
  cases hdc : parse_signalwire_date m.date_created with
  | none =>
    simp only [processMsg, hdc, Option.some.injEq] at h
    rw [← h]
  | some d =>
    simp only [processMsg, hdc] at h
    by_cases hlt : d < start
    · rw [if_pos hlt] at h
      cases h
    · rw [if_neg hlt] at h
      injection h with h
      rw [← h]

lemma processMsg_keeps (start : Int) (m : RawMsg) (r : Rec)
    (h : processMsg start m = some r) :
    ∀ d, r.date_created = some d → ¬ d < start := by
  intro d hd
  cases hdc : parse_signalwire_date m.date_created with
  | none =>
    simp only [processMsg, hdc, Option.some.injEq] at h
    rw [← h] at hd
    cases hd
  | some d' =>
    simp only [processMsg, hdc] at h
    by_cases hlt : d' < start
    · rw [if_pos hlt] at h
      cases h
    · rw [if_neg hlt] at h
      injection h with h
      rw [← h] at hd
      have : d' = d := by
        have : (mkSyncRec m (some d') (parse_signalwire_date m.date_sent)).date_created = some d' := rfl
        rw [this] at hd
        injection hd
      rw [← this]
      exact hlt

lemma mkSyncRec_bounds (m : RawMsg) (dc ds : Option Int) :
    0 ≤ (mkSyncRec m dc ds).price ∧
    (∀ cs, (mkSyncRec m dc ds).body = some cs → cs.length ≤ max_body_length) ∧
    (m.body = none → (mkSyncRec m dc ds).body = none) ∧
    (m.price = RawNum.malformed → (mkSyncRec m dc ds).price = 0) ∧
    (∀ v, m.price = RawNum.num v → (mkSyncRec m dc ds).price = |v|) := by
  refine ⟨?_, ?_, ?_, ?_, ?_⟩
  · show 0 ≤ priceOf m.price
    cases m.price with
    | num v => exact abs_nonneg v
    | missing => exact le_refl 0
    | malformed => exact le_refl 0
  · show ∀ cs, bodyNorm m.body = some cs → cs.length ≤ max_body_length
    intro cs h
    cases hb : m.body with
    | none => rw [hb] at h; cases h
    | some l =>
      rw [hb] at h
      by_cases he : l.isEmpty
      · simp [bodyNorm, he] at h
      · simp only [bodyNorm, if_neg he, Option.some.injEq] at h
        rw [← h, List.length_take]
        exact min_le_left _ _
  · intro hb
    show bodyNorm m.body = none
    rw [hb]
    rfl
  · intro hp
    show priceOf m.price = 0
    rw [hp]
    rfl
  · intro v hp
    show priceOf m.price = |v|
    rw [hp]
    rfl

/-- Python str.lower(), as a map of the case transformation over the
string's code points. -/
def pyLower (s : String) : String := String.mk (s.data.map Char.toLower)

/-- Status normalization of sync_historical_data (tasks.py line 148):
msg.status.lower() when truthy, else 'unknown'. -/
def tasksStatus : Option String → String
  | some s => if s.isEmpty then "unknown" else pyLower s
  | none => "unknown"

/-- Price handling of sync_historical_data (tasks.py line 152):
float(msg.price) when truthy else 0.0 — the sign is kept, and a
malformed value raises out of the record loop (None result). -/
def tasksPrice : RawNum → Option Int
  | RawNum.missing => some 0
  | RawNum.malformed => none
  | RawNum.num v => some v

/-- A message object as the SignalWire SDK stream yields it to
sync_historical_data: dates arrive already parsed. -/
structure TaskMsg where
  sid : String
  date_created : Option Int
  date_sent : Option Int
  to_num : Option String
  from_num : Option String
  status : Option String
  error_code : Option Int
  error_message : Option String
  direction : Option String
  price : RawNum
  body : Option (List Char)
deriving DecidableEq

/-- The record sync_historical_data builds (tasks.py lines 142-154):
no absolute value on price and no truncation of body. -/
def sync_historical_record (m : TaskMsg) : Option Rec :=
  match tasksPrice m.price with
  | none => none
  | some p => some
    { id := m.sid, date_created := m.date_created, date_sent := m.date_sent,
      to_number := m.to_num, from_number := m.from_num,
      status := some (tasksStatus m.status), error_code := m.error_code,
      error_message := m.error_message, direction := m.direction,
      price := p, body := m.body }

/-- A message carrying a negative price and a 501-character body, as the
historical-sync task receives it. -/
def cexTaskMsg : TaskMsg :=
  { sid := "mneg", date_created := some 3, date_sent := none, to_num := none,
    from_num := none, status := some "sent", error_code := none,
    error_message := none, direction := some "outbound-api",
    price := RawNum.num (-5), body := some (List.replicate 501 'a') }

/-- C8 counterexample: the claim says every record produced by
normalization has a non-negative price and a body of at most 500
characters, citing both sync_messages and sync_historical_data; the
record sync_historical_data builds from a message with price -5 keeps
price -5, and from a 501-character body keeps all 501 characters. -/
theorem C8_counterexample :
    (sync_historical_record cexTaskMsg).map Rec.price = some (-5) ∧
    ¬ (0 : Int) ≤ -5 ∧
    (sync_historical_record cexTaskMsg).map Rec.body
      = some (some (List.replicate 501 'a')) ∧
    ¬ (List.replicate 501 'a').length ≤ max_body_length := by
  refine ⟨rfl, by decide, rfl, ?_⟩
  simp only [List.length_replicate, max_body_length]
  decide

/-- C8 (amended): every record the sync_messages normalizer produces has
a non-negative price (a falsy or malformed price yields 0, a parsed
value is coerced to its absolute value) and a body of at most 500
characters, with a falsy body yielding None; the historical-sync task's
record builder instead keeps the sign of a parsed price and copies the
body without truncation. -/
theorem C8_normalization_bounds :
    (∀ (start : Int) (m : RawMsg) (r : Rec), processMsg start m = some r →
      0 ≤ r.price ∧
      (∀ cs, r.body = some cs → cs.length ≤ max_body_length) ∧
      (m.body = none → r.body = none) ∧
      (m.price = RawNum.malformed → r.price = 0) ∧
      (∀ v, m.price = RawNum.num v → r.price = |v|)) ∧
    (∀ (m : TaskMsg) (v : Int) (r : Rec), m.price = RawNum.num v →
      sync_historical_record m = some r → r.price = v ∧ r.body = m.body) := by
  constructor
  · intro start m r h
    rw [processMsg_eq start m r h]
    exact mkSyncRec_bounds m _ _
  · intro m v r hp h
    simp only [sync_historical_record, hp] at h
    have : tasksPrice (RawNum.num v) = some v := rfl
    rw [this] at h
    injection h with h
    rw [← h]
    exact ⟨rfl, rfl⟩

/-- A well-formed message for the witness run of the sync normalizer. -/
def w8Msg : RawMsg :=
  { sid := "m8", date_created := RawDate.rfc 100, date_sent := RawDate.missing,
    to_num := some "+15550001111", from_num := none, status := some "delivered",
    error_code := RawNum.missing, error_message := none,
    direction := some "outbound-api", price := RawNum.num (-7),
    body := some ['o', 'k'] }

/-- The record processMsg builds from w8Msg at start instant 50. -/
def w8Rec : Rec := mkSyncRec w8Msg (some 100) none

/-- C8 witness: the amended theorem applied to the concrete message w8Msg
(negative upstream price -7 stored as 7, two-character body kept). -/
theorem C8_normalization_bounds_witness :
    0 ≤ w8Rec.price ∧ w8Rec.price = |(-7 : Int)| ∧
    (∀ cs, w8Rec.body = some cs → cs.length ≤ max_body_length) := by
  have h : processMsg 50 w8Msg = some w8Rec := rfl
  have H := C8_normalization_bounds.1 50 w8Msg w8Rec h
  exact ⟨H.1, H.2.2.2.2 (-7) rfl, H.2.1⟩

/-- Python truthiness of an optional string (None and "" are falsy). -/
def pyTruthy : Option String → Option String
  | some s => if s.isEmpty then none else some s
  | none => none

/-- Python `a or b` on optional strings. -/
def pyOr (a b : Option String) : Option String :=
  match pyTruthy a with
  | some s => some s
  | none => pyTruthy b

/-- Python truthiness of an optional body. -/
def pyTruthyChars : Option (List Char) → Option (List Char)
  | some cs => if cs.isEmpty then none else some cs
  | none => none

/-- Python `a or b` on optional bodies. -/
def pyOrChars (a b : Option (List Char)) : Option (List Char) :=
  match pyTruthyChars a with
  | some cs => some cs
  | none => pyTruthyChars b

/-- Python `a or b` on raw numeric form fields (absent is falsy). -/
def pyOrNum (a b : RawNum) : RawNum :=
  match a with
  | RawNum.missing => b
  | x => x

/-- The webhook handler's strptime call (tasks.py line 67): only the
RFC-2822-like format parses; there is no ISO fallback here. -/
def webhookStrptime : RawDate → Option Int
  | RawDate.rfc t => some t
  | _ => none

/-- The statuses for which the webhook handler stamps date_sent
(tasks.py line 75). -/
def sentStatuses : List String := ["sent", "delivered", "failed", "undelivered"]

/-- A DLR webhook form payload (Twilio-compatible keys). -/
structure WebhookData where
  MessageSid : Option String
  SmsSid : Option String
  MessageStatus : Option String
  SmsStatus : Option String
  ErrorCode : RawNum
  SmsErrorCode : RawNum
  ErrorMessage : Option String
  SmsErrorMessage : Option String
  To : Option String
  From_ : Option String
  Direction : Option String
  Body : Option (List Char)
  MessageBody : Option (List Char)
  DateCreated : RawDate
deriving DecidableEq

/-- Status normalization of process_webhook_event (tasks.py line 43). -/
def webhookStatus (data : WebhookData) : String :=
  pyLower ((pyOr data.MessageStatus data.SmsStatus).getD "unknown")

/-- Error-code parsing of process_webhook_event (tasks.py lines 46-52). -/
def webhookErrorCode (data : WebhookData) : Option Int :=
  match pyOrNum data.ErrorCode data.SmsErrorCode with
  | RawNum.num v => some v
  | _ => none

/-- The record process_webhook_event upserts (tasks.py lines 29-102): a
missing sid aborts; DateCreated falls back to the current time whenever
the strptime parse fails; date_sent is stamped now only for
terminal-or-sent statuses; price is absent from the insert so the column
default 0 applies. -/
def process_webhook_record (now : Int) (data : WebhookData) : Option Rec :=
  match pyOr data.MessageSid data.SmsSid with
  | none => none
  | some sid =>
    let status := webhookStatus data
    some
      { id := sid,
        date_created := some ((webhookStrptime data.DateCreated).getD now),
        date_sent := if status ∈ sentStatuses then some now else none,
        to_number := data.To, from_number := data.From_,
        status := some status, error_code := webhookErrorCode data,
        error_message := pyOr data.ErrorMessage data.SmsErrorMessage,
        direction := some (data.Direction.getD "outbound-api"),
        price := 0, body := pyOrChars data.Body data.MessageBody }

/-- C7: timestamp handling never fails a record: parse_signalwire_date
accepts the RFC-2822-like remote format and falls back to ISO-8601, and
the webhook normalizer always yields a record (given a message sid) whose
created_at defaults to the current time when its timestamp parse fails
and whose sent_at stays None for non-terminal statuses. -/
theorem C7_timestamp_defaults :
    (∀ t, parse_signalwire_date (RawDate.rfc t) = some t) ∧
    (∀ t, parse_signalwire_date (RawDate.iso t) = some t) ∧
    (∀ (now : Int) (data : WebhookData) (sid : String),
      pyOr data.MessageSid data.SmsSid = some sid →
      ∃ r, process_webhook_record now data = some r ∧
        r.date_created = some ((webhookStrptime data.DateCreated).getD now) ∧
        (webhookStrptime data.DateCreated = none → r.date_created = some now) ∧
        (webhookStatus data ∉ sentStatuses → r.date_sent = none)) := by
  refine ⟨fun t => rfl, fun t => rfl, ?_⟩
  intro now data sid h
  refine ⟨{ id := sid,
            date_created := some ((webhookStrptime data.DateCreated).getD now),
            date_sent :=
              if webhookStatus data ∈ sentStatuses then some now else none,
            to_number := data.To, from_number := data.From_,
            status := some (webhookStatus data),
            error_code := webhookErrorCode data,
            error_message := pyOr data.ErrorMessage data.SmsErrorMessage,
            direction := some (data.Direction.getD "outbound-api"),
            price := 0, body := pyOrChars data.Body data.MessageBody },
    ?_, rfl, ?_, ?_⟩
  · simp only [process_webhook_record, h]
  · intro hp
    show some ((webhookStrptime data.DateCreated).getD now) = some now
    rw [hp]
    rfl
  · intro hs
    show (if webhookStatus data ∈ sentStatuses then some now else none) = none
    rw [if_neg hs]

/-- A webhook payload with an ISO-format DateCreated (which the handler's
strptime rejects) and a non-terminal status. -/
def wData : WebhookData :=
  { MessageSid := some "sidw", SmsSid := none,
    MessageStatus := some "queued", SmsStatus := none,
    ErrorCode := RawNum.missing, SmsErrorCode := RawNum.missing,
    ErrorMessage := none, SmsErrorMessage := none,
    To := some "+15550001111", From_ := none, Direction := none,
    Body := none, MessageBody := none, DateCreated := RawDate.iso 7 }

/-- C7 witness: at current time 99, the webhook record built from wData
exists, has created_at = 99 (fallback) and sent_at = None. -/
theorem C7_timestamp_defaults_witness :
    (process_webhook_record 99 wData).map Rec.date_created = some (some 99) ∧
    (process_webhook_record 99 wData).map Rec.date_sent = some none := by
  obtain ⟨r, hr, hdc, hnow, hds⟩ :=
    C7_timestamp_defaults.2.2 99 wData "sidw" rfl
  rw [hr]
  constructor
  · show some r.date_created = some (some 99)
    rw [hnow rfl]
  · show some r.date_sent = some none
    rw [hds (by decide)]

/-- Batch size of sync_messages (line 168). -/
def batch_size : Nat := 100

/-- Running state of sync_messages: the stop-flag clock (one tick per read
of stop_requested), the page and progress counters, the pending batch,
every record flushed so far in flush order, the number of fetch calls,
and the store. -/
structure SyncSt where
  t : Nat
  page : Nat
  fetched : Nat
  saved : Nat
  batch : List Rec
  done : List Rec
  fetches : Nat
  store : Store

/-- Flush the pending batch through save_batch and account for it
(sync_logs.py lines 280-284 and 293-296). -/
def flushSt (st : SyncSt) : SyncSt :=
  { st with store := save_batch_store st.batch st.store,
            saved := st.saved + st.batch.length,
            done := st.done ++ st.batch, batch := [] }

/-- The for-loop over one page's messages (sync_logs.py lines 227-284):
before each message the stop flag is read (one clock tick); a set flag
breaks out of the page; otherwise the message is processed and a full
batch is flushed. -/
def procMsgs (start : Int) (flag : Nat → Bool) :
    List RawMsg → SyncSt → SyncSt
  | [], st => st
  | m :: rest, st =>
    if flag st.t then { st with t := st.t + 1 }
    else
      let st1 : SyncSt := { st with t := st.t + 1 }
      match processMsg start m with
      | none => procMsgs start flag rest st1
      | some r =>
        let st2 : SyncSt :=
          { st1 with fetched := st1.fetched + 1, batch := st1.batch ++ [r] }
        let st3 : SyncSt :=
          if batch_size ≤ st2.batch.length then flushSt st2 else st2
        procMsgs start flag rest st3

/-- Which break ended the while loop of sync_messages. -/
inductive ExitReason where
  | fetchFailed : ExitReason
  | emptyPage : ExitReason
  | noNext : ExitReason
  | cancelled : ExitReason
deriving DecidableEq

/-- The while loop of sync_messages (lines 186-291): the stop flag is read
(one tick); when set the loop exits without fetching; otherwise the next
page is fetched (None models a page whose fetch failed even after the
retry budget); an empty page ends the loop before processing, an absent
continuation token after processing. The fuel bounds the iterations (the
code has no page cap here); None means fuel ran out. -/
def syncLoop (start : Int) (pages : Nat → Option Page) (flag : Nat → Bool) :
    Nat → SyncSt → Option (SyncSt × ExitReason)
  | 0, _ => none
  | fuel + 1, st =>
    if flag st.t then some ({ st with t := st.t + 1 }, ExitReason.cancelled)
    else
      let st1 : SyncSt := { st with t := st.t + 1 }
      match pages st1.fetches with
      | none =>
        some ({ st1 with fetches := st1.fetches + 1 }, ExitReason.fetchFailed)
      | some pg =>
        let st2 : SyncSt := { st1 with fetches := st1.fetches + 1 }
        if pg.messages.isEmpty then some (st2, ExitReason.emptyPage)
        else
          let st3 : SyncSt :=
            procMsgs start flag pg.messages { st2 with page := st2.page + 1 }
          match pg.next_page_uri with
          | none => some (st3, ExitReason.noNext)
          | some _ => syncLoop start pages flag fuel st3

/-- What sync_messages reports: the returned success flag and the printed
counters, plus (for reasoning) the final store, the flushed records, the
fetch count and the loop's exit reason. -/
structure SyncResult where
  success : Bool
  pages : Nat
  fetched : Nat
  saved : Nat
  store : Store
  processedAll : List Rec
  fetches : Nat
  reason : ExitReason

/-- The starting state of a sync_messages run over a given store. -/
def initSt (s0 : Store) : SyncSt :=
  { t := 0, page := 0, fetched := 0, saved := 0, batch := [], done := [],
    fetches := 0, store := s0 }

/-- The final flush of sync_messages (lines 293-296): a non-empty
leftover batch is saved. -/
def finishSt (st : SyncSt) : SyncSt :=
  if st.batch.isEmpty then st else flushSt st

/-- sync_messages (sync_logs.py lines 131-312), given the start instant,
the page each fetch attempt returns, the stop-flag history and a fuel
bound: after the loop the leftover batch is flushed and the function
returns True with its counters, whatever ended the loop. -/
def sync_messages_model (start : Int) (pages : Nat → Option Page)
    (flag : Nat → Bool) (fuel : Nat) (s0 : Store) : Option SyncResult :=
  match syncLoop start pages flag fuel (initSt s0) with
  | none => none
  | some (st, reason) =>
    some { success := true, pages := (finishSt st).page,
           fetched := (finishSt st).fetched, saved := (finishSt st).saved,
           store := (finishSt st).store,
           processedAll := (finishSt st).done ++ (finishSt st).batch,
           fetches := (finishSt st).fetches, reason := reason }

/-- A record that passed (or was exempt from) the boundary filter. -/
def recOK (start : Int) (r : Rec) : Prop :=
  ∀ d, r.date_created = some d → ¬ d < start

/-- Run invariant of sync_messages: the store is the initial store with
every flushed record upserted, saved counts the flushed records, and
every buffered or flushed record passed the boundary filter. -/
def InvS (start : Int) (s0 : Store) (st : SyncSt) : Prop :=
  st.store = save_batch_store st.done s0 ∧
  st.saved = st.done.length ∧
  ∀ r ∈ st.done ++ st.batch, recOK start r

/-- The state after reading the stop flag once. -/
def tickSt (st : SyncSt) : SyncSt := { st with t := st.t + 1 }

/-- The state after processing one kept record (flag read, fetched
counter bumped, record appended to the batch). -/
def bumpSt (st : SyncSt) (r : Rec) : SyncSt :=
  { st with t := st.t + 1, fetched := st.fetched + 1, batch := st.batch ++ [r] }

lemma save_batch_store_append (a b : List Rec) (s : Store) :
    save_batch_store (a ++ b) s = save_batch_store b (save_batch_store a s) := by
  simp only [save_batch_store, upsertStore, List.foldl_append]

lemma flushSt_inv (start : Int) (s0 : Store) (st : SyncSt)
    (h : InvS start s0 st) : InvS start s0 (flushSt st) := by
  obtain ⟨h1, h2, h3⟩ := h
  refine ⟨?_, ?_, ?_⟩
  · show save_batch_store st.batch st.store
      = save_batch_store (st.done ++ st.batch) s0
    rw [h1, save_batch_store_append]
  · show st.saved + st.batch.length = (st.done ++ st.batch).length
    rw [h2, List.length_append]
  · show ∀ r ∈ (st.done ++ st.batch) ++ [], recOK start r
    intro r hr
    rw [List.append_nil] at hr
    exact h3 r hr

lemma procMsgs_nil (start : Int) (flag : Nat → Bool) (st : SyncSt) :
    procMsgs start flag [] st = st := rfl

lemma procMsgs_flagT (start : Int) (flag : Nat → Bool) (m : RawMsg)
    (rest : List RawMsg) (st : SyncSt) (hf : flag st.t = true) :
    procMsgs start flag (m :: rest) st = tickSt st := by
  simp [procMsgs, hf, tickSt]

lemma procMsgs_skip (start : Int) (flag : Nat → Bool) (m : RawMsg)
    (rest : List RawMsg) (st : SyncSt) (hf : flag st.t = false)
    (hp : processMsg start m = none) :
    procMsgs start flag (m :: rest) st
      = procMsgs start flag rest (tickSt st) := by
  simp [procMsgs, hf, hp, tickSt]

lemma procMsgs_keep (start : Int) (flag : Nat → Bool) (m : RawMsg)
    (rest : List RawMsg) (st : SyncSt) (r : Rec) (hf : flag st.t = false)
    (hp : processMsg start m = some r) :
    procMsgs start flag (m :: rest) st
      = procMsgs start flag rest
          (if batch_size ≤ (st.batch ++ [r]).length
           then flushSt (bumpSt st r) else bumpSt st r) := by
  simp [procMsgs, hf, hp, bumpSt, flushSt]

lemma procMsgs_counts (start : Int) (flag : Nat → Bool) :
    ∀ (msgs : List RawMsg) (st : SyncSt),
      (procMsgs start flag msgs st).fetches = st.fetches ∧
      (procMsgs start flag msgs st).page = st.page ∧
      st.t ≤ (procMsgs start flag msgs st).t := by
  intro msgs
  induction msgs with
  | nil => intro st; exact ⟨rfl, rfl, Nat.le_refl _⟩
  | cons m rest ih =>
    intro st
    by_cases hf : flag st.t
    · rw [procMsgs_flagT start flag m rest st hf]
      exact ⟨rfl, rfl, Nat.le_succ _⟩
    · rw [Bool.not_eq_true] at hf
      cases hp : processMsg start m with
      | none =>
        rw [procMsgs_skip start flag m rest st hf hp]
        obtain ⟨h1, h2, h3⟩ := ih (tickSt st)
        exact ⟨h1, h2, Nat.le_trans (Nat.le_succ _) h3⟩
      | some r =>
        rw [procMsgs_keep start flag m rest st r hf hp]
        by_cases hb : batch_size ≤ (st.batch ++ [r]).length
        · rw [if_pos hb]
          obtain ⟨h1, h2, h3⟩ := ih (flushSt (bumpSt st r))
          exact ⟨h1, h2, Nat.le_trans (Nat.le_succ _) h3⟩
        · rw [if_neg hb]
          obtain ⟨h1, h2, h3⟩ := ih (bumpSt st r)
          exact ⟨h1, h2, Nat.le_trans (Nat.le_succ _) h3⟩

lemma bumpSt_inv (start : Int) (s0 : Store) (st : SyncSt) (r : Rec)
    (h : InvS start s0 st) (hrOK : recOK start r) :
    InvS start s0 (bumpSt st r) := by
  obtain ⟨ha, hb, hc⟩ := h
  refine ⟨ha, hb, ?_⟩
  intro x hx
  have hx' : x ∈ st.done ++ (st.batch ++ [r]) := hx
  rcases List.mem_append.mp hx' with hx1 | hx2
  · exact hc x (List.mem_append.mpr (Or.inl hx1))
  · rcases List.mem_append.mp hx2 with hx3 | hx4
    · exact hc x (List.mem_append.mpr (Or.inr hx3))
    · rw [List.mem_singleton] at hx4
      rw [hx4]
      exact hrOK

lemma procMsgs_inv (start : Int) (s0 : Store) (flag : Nat → Bool) :
    ∀ (msgs : List RawMsg) (st : SyncSt),
      InvS start s0 st → InvS start s0 (procMsgs start flag msgs st) := by
  intro msgs
  induction msgs with
  | nil => intro st h; exact h
  | cons m rest ih =>
    intro st h
    by_cases hf : flag st.t
    · rw [procMsgs_flagT start flag m rest st hf]
      exact h
    · rw [Bool.not_eq_true] at hf
      cases hp : processMsg start m with
      | none =>
        rw [procMsgs_skip start flag m rest st hf hp]
        exact ih _ h
      | some r =>
        rw [procMsgs_keep start flag m rest st r hf hp]
        have hrOK : recOK start r := fun d hd => processMsg_keeps start m r hp d hd
        have h2 : InvS start s0 (bumpSt st r) := bumpSt_inv start s0 st r h hrOK
        by_cases hb : batch_size ≤ (st.batch ++ [r]).length
        · rw [if_pos hb]
          exact ih _ (flushSt_inv start s0 _ h2)
        · rw [if_neg hb]
          exact ih _ h2

/-- The state after a flag read and one accounted fetch call. -/
def fetchSt (st : SyncSt) : SyncSt :=
  { st with t := st.t + 1, fetches := st.fetches + 1 }

/-- The state entering a page's message loop: flag read, fetch accounted,
page counter bumped. -/
def pageSt (st : SyncSt) : SyncSt :=
  { st with t := st.t + 1, fetches := st.fetches + 1, page := st.page + 1 }

lemma syncLoop_cancel (start : Int) (pages : Nat → Option Page)
    (flag : Nat → Bool) (fuel : Nat) (st : SyncSt) (hf : flag st.t = true) :
    syncLoop start pages flag (fuel + 1) st
      = some (tickSt st, ExitReason.cancelled) := by
  simp [syncLoop, hf, tickSt]

lemma syncLoop_fail (start : Int) (pages : Nat → Option Page)
    (flag : Nat → Bool) (fuel : Nat) (st : SyncSt) (hf : flag st.t = false)
    (hp : pages st.fetches = none) :
    syncLoop start pages flag (fuel + 1) st
      = some (fetchSt st, ExitReason.fetchFailed) := by
  simp [syncLoop, hf, hp, fetchSt]

lemma syncLoop_empty (start : Int) (pages : Nat → Option Page)
    (flag : Nat → Bool) (fuel : Nat) (st : SyncSt) (pg : Page)
    (hf : flag st.t = false) (hp : pages st.fetches = some pg)
    (he : pg.messages.isEmpty = true) :
    syncLoop start pages flag (fuel + 1) st
      = some (fetchSt st, ExitReason.emptyPage) := by
  simp [syncLoop, hf, hp, he, fetchSt]

lemma syncLoop_noNext (start : Int) (pages : Nat → Option Page)
    (flag : Nat → Bool) (fuel : Nat) (st : SyncSt) (pg : Page)
    (hf : flag st.t = false) (hp : pages st.fetches = some pg)
    (he : pg.messages.isEmpty = false) (hn : pg.next_page_uri = none) :
    syncLoop start pages flag (fuel + 1) st
      = some (procMsgs start flag pg.messages (pageSt st), ExitReason.noNext) := by
  simp [syncLoop, hf, hp, he, hn, pageSt]

lemma syncLoop_next (start : Int) (pages : Nat → Option Page)
    (flag : Nat → Bool) (fuel : Nat) (st : SyncSt) (pg : Page) (u : String)
    (hf : flag st.t = false) (hp : pages st.fetches = some pg)
    (he : pg.messages.isEmpty = false) (hn : pg.next_page_uri = some u) :
    syncLoop start pages flag (fuel + 1) st
      = syncLoop start pages flag fuel
          (procMsgs start flag pg.messages (pageSt st)) := by
  simp [syncLoop, hf, hp, he, hn, pageSt]

lemma syncLoop_inv (start : Int) (pages : Nat → Option Page)
    (flag : Nat → Bool) (s0 : Store) :
    ∀ (fuel : Nat) (st st' : SyncSt) (rsn : ExitReason),
      syncLoop start pages flag fuel st = some (st', rsn) →
      InvS start s0 st → InvS start s0 st' := by
  intro fuel
  induction fuel with
  | zero => intro st st' rsn h; cases h
  | succ f ih =>
    intro st st' rsn h hInv
    by_cases hf : flag st.t
    · rw [syncLoop_cancel start pages flag f st hf] at h
      injection h with h
      injection h with h1 h2
      rw [← h1]
      exact hInv
    · rw [Bool.not_eq_true] at hf
      cases hp : pages st.fetches with
      | none =>
        rw [syncLoop_fail start pages flag f st hf hp] at h
        injection h with h
        injection h with h1 h2
        rw [← h1]
        exact hInv
      | some pg =>
        cases he : pg.messages.isEmpty with
        | true =>
          rw [syncLoop_empty start pages flag f st pg hf hp he] at h
          injection h with h
          injection h with h1 h2
          rw [← h1]
          exact hInv
        | false =>
          cases hn : pg.next_page_uri with
          | none =>
            rw [syncLoop_noNext start pages flag f st pg hf hp he hn] at h
            injection h with h
            injection h with h1 h2
            rw [← h1]
            exact procMsgs_inv start s0 flag pg.messages (pageSt st) hInv
          | some u =>
            rw [syncLoop_next start pages flag f st pg u hf hp he hn] at h
            exact ih _ _ _ h
              (procMsgs_inv start s0 flag pg.messages (pageSt st) hInv)

lemma initSt_inv (start : Int) (s0 : Store) : InvS start s0 (initSt s0) := by
  refine ⟨rfl, rfl, ?_⟩
  intro r hr
  cases hr

lemma finishSt_batch (st : SyncSt) : (finishSt st).batch = [] := by
  by_cases h : st.batch.isEmpty
  · simp only [finishSt, if_pos h]
    exact List.isEmpty_iff.mp h
  · simp only [finishSt, if_neg h]
    rfl

lemma finishSt_invS (start : Int) (s0 : Store) (st : SyncSt)
    (h : InvS start s0 st) : InvS start s0 (finishSt st) := by
  by_cases hb : st.batch.isEmpty
  · simp only [finishSt, if_pos hb]
    exact h
  · simp only [finishSt, if_neg hb]
    exact flushSt_inv start s0 st h

lemma finishSt_fields (st : SyncSt) :
    (finishSt st).fetches = st.fetches ∧ (finishSt st).page = st.page ∧
    (finishSt st).fetched = st.fetched := by
  by_cases h : st.batch.isEmpty
  · simp [finishSt, h]
  · simp [finishSt, h, flushSt]

lemma sync_messages_model_eq (start : Int) (pages : Nat → Option Page)
    (flag : Nat → Bool) (fuel : Nat) (s0 : Store) (st' : SyncSt)
    (rsn : ExitReason)
    (h : syncLoop start pages flag fuel (initSt s0) = some (st', rsn)) :
    sync_messages_model start pages flag fuel s0
      = some { success := true, pages := (finishSt st').page,
               fetched := (finishSt st').fetched,
               saved := (finishSt st').saved, store := (finishSt st').store,
               processedAll := (finishSt st').done ++ (finishSt st').batch,
               fetches := (finishSt st').fetches, reason := rsn } := by
  simp only [sync_messages_model, h]

lemma sync_messages_model_props (start : Int) (pages : Nat → Option Page)
    (flag : Nat → Bool) (fuel : Nat) (s0 : Store) (res : SyncResult)
    (h : sync_messages_model start pages flag fuel s0 = some res) :
    res.success = true ∧
    res.store = save_batch_store res.processedAll s0 ∧
    res.saved = res.processedAll.length ∧
    ∀ r ∈ res.processedAll, recOK start r := by
  cases hl : syncLoop start pages flag fuel (initSt s0) with
  | none =>
    simp only [sync_messages_model, hl] at h
    exact Option.noConfusion h
  | some out =>
    cases out with
    | mk st' rsn =>
      rw [sync_messages_model_eq start pages flag fuel s0 st' rsn hl] at h
      injection h with h
      have hInv : InvS start s0 (finishSt st') :=
        finishSt_invS start s0 st'
          (syncLoop_inv start pages flag s0 fuel (initSt s0) st' rsn hl
            (initSt_inv start s0))
      obtain ⟨h1, h2, h3⟩ := hInv
      rw [← h]
      refine ⟨rfl, ?_, ?_, h3⟩
      · show (finishSt st').store
          = save_batch_store ((finishSt st').done ++ (finishSt st').batch) s0
        rw [finishSt_batch, List.append_nil]
        exact h1
      · show (finishSt st').saved
          = ((finishSt st').done ++ (finishSt st').batch).length
        rw [finishSt_batch, List.append_nil]
        exact h2

lemma save_batch_store_mem (l : List Rec) (s : Store) (r : Rec) (hr : r ∈ l) :
    ∃ y, save_batch_store l s r.id = some y := by
  have hcell : save_batch_store l s r.id
      = applyM sbMerge (s r.id) (matchesOf l r.id) :=
    upsertStore_cell_matches sbMerge l s r.id
  have hmem : r ∈ matchesOf l r.id := by
    simp [matchesOf, List.mem_filter, hr]
  cases hm : matchesOf l r.id with
  | nil =>
    rw [hm] at hmem
    cases hmem
  | cons m tl =>
    rw [hm] at hcell
    have hstep : applyM sbMerge (s r.id) (m :: tl)
        = applyM sbMerge (some (mergeOpt sbMerge (s r.id) m)) tl := rfl
    rw [hstep] at hcell
    obtain ⟨y, hy⟩ := applyM_some sbMerge tl (mergeOpt sbMerge (s r.id) m)
    exact ⟨y, by rw [hcell, hy]⟩

lemma save_batch_store_stable (l : List Rec) (s : Store) (i : String)
    (h : ∀ r ∈ l, r.id ≠ i) : save_batch_store l s i = s i := by
  have hcell : save_batch_store l s i = applyM sbMerge (s i) (matchesOf l i) :=
    upsertStore_cell_matches sbMerge l s i
  have hm : matchesOf l i = [] := by
    simp only [matchesOf, List.filter_eq_nil_iff, decide_eq_true_eq]
    intro a ha hc
    exact h a ha hc.symm
  rw [hcell, hm]
  rfl

lemma save_batch_store_diff (l : List Rec) (s : Store) (i : String)
    (h : ¬ save_batch_store l s i = s i) : ∃ r ∈ l, r.id = i := by
  by_contra hc
  push_neg at hc
  exact h (save_batch_store_stable l s i hc)

lemma syncLoop_fetchFailed_run (start : Int) (pages : Nat → Option Page)
    (flag : Nat → Bool) (hf : ∀ t, flag t = false) :
    ∀ (k fuel : Nat) (st : SyncSt),
      (∀ j, j < k → ∃ pg u, pages (st.fetches + j) = some pg ∧
        pg.messages.isEmpty = false ∧ pg.next_page_uri = some u) →
      pages (st.fetches + k) = none → k < fuel →
      ∃ st', syncLoop start pages flag fuel st
          = some (st', ExitReason.fetchFailed) ∧
        st'.fetches = st.fetches + k + 1 := by
  intro k
  induction k with
  | zero =>
    intro fuel st hpre hk hfuel
    cases fuel with
    | zero => exact absurd hfuel (Nat.lt_irrefl 0)
    | succ f =>
      rw [Nat.add_zero] at hk
      refine ⟨fetchSt st, syncLoop_fail start pages flag f st (hf st.t) hk, ?_⟩
      show st.fetches + 1 = st.fetches + 0 + 1
      omega
  | succ k ih =>
    intro fuel st hpre hk hfuel
    cases fuel with
    | zero => exact absurd hfuel (by omega)
    | succ f =>
      obtain ⟨pg, u, hp, he, hn⟩ := hpre 0 (by omega)
      rw [Nat.add_zero] at hp
      rw [syncLoop_next start pages flag f st pg u (hf st.t) hp he hn]
      have hfe : (procMsgs start flag pg.messages (pageSt st)).fetches
          = st.fetches + 1 := by
        rw [(procMsgs_counts start flag pg.messages (pageSt st)).1]
        rfl
      have hpre3 : ∀ j, j < k → ∃ pg' u',
          pages ((procMsgs start flag pg.messages (pageSt st)).fetches + j)
            = some pg' ∧
          pg'.messages.isEmpty = false ∧ pg'.next_page_uri = some u' := by
        intro j hj
        obtain ⟨pg', u', h1, h2, h3⟩ := hpre (j + 1) (by omega)
        refine ⟨pg', u', ?_, h2, h3⟩
        rw [hfe, show st.fetches + 1 + j = st.fetches + (j + 1) from by omega]
        exact h1
      have hk3 : pages ((procMsgs start flag pg.messages (pageSt st)).fetches + k)
          = none := by
        rw [hfe, show st.fetches + 1 + k = st.fetches + (k + 1) from by omega]
        exact hk
      obtain ⟨st', hrun, hcount⟩ := ih f
        (procMsgs start flag pg.messages (pageSt st)) hpre3 hk3 (by omega)
      refine ⟨st', hrun, ?_⟩
      omega

/-- C4 (amended): when a page fetch fails beyond the retry budget (after k
good pages), the run performs exactly k+1 fetches (none after the
failure), flushes the pending buffer into the store, reports the counters
accumulated so far, and returns success (True) — not a failed result. -/
theorem C4_page_failure (start : Int) (pages : Nat → Option Page)
    (flag : Nat → Bool) (k fuel : Nat) (s0 : Store)
    (hflag : ∀ t, flag t = false)
    (hpre : ∀ j, j < k → ∃ pg u, pages j = some pg ∧
      pg.messages.isEmpty = false ∧ pg.next_page_uri = some u)
    (hfail : pages k = none) (hfuel : k < fuel) :
    ∃ res, sync_messages_model start pages flag fuel s0 = some res ∧
      res.success = true ∧ res.reason = ExitReason.fetchFailed ∧
      res.fetches = k + 1 ∧
      res.store = save_batch_store res.processedAll s0 ∧
      res.saved = res.processedAll.length := by
  have hpre' : ∀ j, j < k → ∃ pg u, pages ((initSt s0).fetches + j) = some pg ∧
      pg.messages.isEmpty = false ∧ pg.next_page_uri = some u := by
    intro j hj
    obtain ⟨pg, u, ha, hb, hc⟩ := hpre j hj
    refine ⟨pg, u, ?_, hb, hc⟩
    show pages (0 + j) = some pg
    rw [Nat.zero_add]
    exact ha
  have hfail' : pages ((initSt s0).fetches + k) = none := by
    show pages (0 + k) = none
    rw [Nat.zero_add]
    exact hfail
  obtain ⟨st', hrun, hcount⟩ := syncLoop_fetchFailed_run start pages flag hflag
    k fuel (initSt s0) hpre' hfail' hfuel
  have hm := sync_messages_model_eq start pages flag fuel s0 st'
    ExitReason.fetchFailed hrun
  have hp := sync_messages_model_props start pages flag fuel s0 _ hm
  refine ⟨_, hm, rfl, rfl, ?_, hp.2.1, hp.2.2.1⟩
  show (finishSt st').fetches = k + 1
  rw [(finishSt_fields st').1, hcount]
  show 0 + k + 1 = k + 1
  omega

/-- The empty store. -/
def emptyStore : Store := fun _ => none

/-- A message kept by the boundary filter in the concrete runs. -/
def mA : RawMsg :=
  { sid := "a", date_created := RawDate.rfc 100, date_sent := RawDate.missing,
    to_num := none, from_num := none, status := some "sent",
    error_code := RawNum.missing, error_message := none, direction := none,
    price := RawNum.missing, body := none }

/-- A second such message with a different sid. -/
def mB : RawMsg := { mA with sid := "b" }

/-- A source whose first page is good and whose second fetch fails. -/
def cexPages : Nat → Option Page := fun n =>
  if n = 0 then some { messages := [mA, mB], next_page_uri := some "u" }
  else none

/-- A stop flag that is never set. -/
def cexFlagF : Nat → Bool := fun _ => false

/-- C4 counterexample: after page 1 succeeds (2 records) and the fetch of
page 2 fails beyond the retry budget, sync_messages breaks out, flushes
and commits the 2 records, and returns success = true with its counters —
the claim instead demands an unsuccessful FAILED result. -/
theorem C4_counterexample :
    (sync_messages_model 50 cexPages cexFlagF 5 emptyStore).map
        (fun r => (r.success, r.reason, r.pages, r.fetched, r.saved, r.fetches))
      = some (true, ExitReason.fetchFailed, 1, 2, 2, 2) := by
  decide

/-- C4 witness: the amended theorem applied to the concrete failing source
cexPages (one good page, then a failed fetch). -/
theorem C4_page_failure_witness :
    (sync_messages_model 50 cexPages cexFlagF 5 emptyStore).map
        (fun r => (r.success, r.reason, r.fetches))
      = some (true, ExitReason.fetchFailed, 2) := by
  have hpre : ∀ j, j < 1 → ∃ pg u, cexPages j = some pg ∧
      pg.messages.isEmpty = false ∧ pg.next_page_uri = some u := by
    intro j hj
    have hj0 : j = 0 := by omega
    subst hj0
    exact ⟨_, "u", rfl, rfl, rfl⟩
  obtain ⟨res, hres, h1, h2, h3, h4, h5⟩ :=
    C4_page_failure 50 cexPages cexFlagF 1 5 emptyStore (fun t => rfl) hpre rfl
      (by omega)
  rw [hres]
  show some (res.success, res.reason, res.fetches)
      = some (true, ExitReason.fetchFailed, 2)
  rw [h1, h2, h3]

lemma flag_stays (flag : Nat → Bool)
    (hm : ∀ t, flag t = true → flag (t + 1) = true) (T : Nat)
    (hT : flag T = true) : ∀ t, T ≤ t → flag t = true := by
  intro t ht
  induction t, ht using Nat.le_induction with
  | base => exact hT
  | succ n hn ih => exact hm n ih

lemma syncLoop_fetch_bound (start : Int) (pages : Nat → Option Page)
    (flag : Nat → Bool) (T : Nat)
    (hm : ∀ t, flag t = true → flag (t + 1) = true) (hT : flag T = true) :
    ∀ (fuel : Nat) (st st' : SyncSt) (rsn : ExitReason),
      syncLoop start pages flag fuel st = some (st', rsn) →
      st'.fetches ≤ st.fetches + (T - st.t) := by
  intro fuel
  induction fuel with
  | zero => intro st st' rsn h; cases h
  | succ f ih =>
    intro st st' rsn h
    by_cases hf : flag st.t
    · rw [syncLoop_cancel start pages flag f st hf] at h
      injection h with h
      injection h with h1 h2
      rw [← h1]
      show st.fetches ≤ st.fetches + (T - st.t)
      omega
    · have hlt : st.t < T := by
        by_contra hge
        push_neg at hge
        rw [flag_stays flag hm T hT st.t hge] at hf
        exact hf rfl
      rw [Bool.not_eq_true] at hf
      cases hp : pages st.fetches with
      | none =>
        rw [syncLoop_fail start pages flag f st hf hp] at h
        injection h with h
        injection h with h1 h2
        rw [← h1]
        show st.fetches + 1 ≤ st.fetches + (T - st.t)
        omega
      | some pg =>
        cases he : pg.messages.isEmpty with
        | true =>
          rw [syncLoop_empty start pages flag f st pg hf hp he] at h
          injection h with h
          injection h with h1 h2
          rw [← h1]
          show st.fetches + 1 ≤ st.fetches + (T - st.t)
          omega
        | false =>
          cases hn : pg.next_page_uri with
          | none =>
            rw [syncLoop_noNext start pages flag f st pg hf hp he hn] at h
            injection h with h
            injection h with h1 h2
            rw [← h1]
            have hfe : (procMsgs start flag pg.messages (pageSt st)).fetches
                = st.fetches + 1 := by
              rw [(procMsgs_counts start flag pg.messages (pageSt st)).1]
              rfl
            rw [hfe]
            omega
          | some u =>
            rw [syncLoop_next start pages flag f st pg u hf hp he hn] at h
            have hb := ih _ _ _ h
            have hfe : (procMsgs start flag pg.messages (pageSt st)).fetches
                = st.fetches + 1 := by
              rw [(procMsgs_counts start flag pg.messages (pageSt st)).1]
              rfl
            have hte : st.t + 1
                ≤ (procMsgs start flag pg.messages (pageSt st)).t :=
              (procMsgs_counts start flag pg.messages (pageSt st)).2.2
            omega

lemma syncLoop_term (start : Int) (pages : Nat → Option Page)
    (flag : Nat → Bool) (T : Nat)
    (hm : ∀ t, flag t = true → flag (t + 1) = true) (hT : flag T = true) :
    ∀ (fuel : Nat) (st : SyncSt), T - st.t < fuel →
      ∃ out, syncLoop start pages flag fuel st = some out := by
  intro fuel
  induction fuel with
  | zero => intro st h; exact absurd h (by omega)
  | succ f ih =>
    intro st hfl
    by_cases hf : flag st.t
    · exact ⟨_, syncLoop_cancel start pages flag f st hf⟩
    · have hlt : st.t < T := by
        by_contra hge
        push_neg at hge
        rw [flag_stays flag hm T hT st.t hge] at hf
        exact hf rfl
      rw [Bool.not_eq_true] at hf
      cases hp : pages st.fetches with
      | none => exact ⟨_, syncLoop_fail start pages flag f st hf hp⟩
      | some pg =>
        cases he : pg.messages.isEmpty with
        | true => exact ⟨_, syncLoop_empty start pages flag f st pg hf hp he⟩
        | false =>
          cases hn : pg.next_page_uri with
          | none =>
            exact ⟨_, syncLoop_noNext start pages flag f st pg hf hp he hn⟩
          | some u =>
            rw [syncLoop_next start pages flag f st pg u hf hp he hn]
            apply ih
            have hte : st.t + 1
                ≤ (procMsgs start flag pg.messages (pageSt st)).t :=
              (procMsgs_counts start flag pg.messages (pageSt st)).2.2
            omega

/-- C5 (amended): once the cancellation flag is set (monotone flag, true
from instant T), the run terminates with at most T fetches (no new page
fetch once the flag is read as set), the current buffer is flushed so
every processed record is present in the store, and the function
returns the ordinary success result (True) — not an error, but also not
a status distinct from a normal completion. -/
theorem C5_cancellation (start : Int) (pages : Nat → Option Page)
    (flag : Nat → Bool) (T fuel : Nat) (s0 : Store)
    (hmono : ∀ t, flag t = true → flag (t + 1) = true)
    (hT : flag T = true) (hfuel : T < fuel) :
    ∃ res, sync_messages_model start pages flag fuel s0 = some res ∧
      res.success = true ∧ res.fetches ≤ T ∧
      res.store = save_batch_store res.processedAll s0 ∧
      res.saved = res.processedAll.length ∧
      ∀ r ∈ res.processedAll, ∃ y, res.store r.id = some y := by
  obtain ⟨out, hout⟩ := syncLoop_term start pages flag T hmono hT fuel
    (initSt s0) (by show T - 0 < fuel; omega)
  cases out with
  | mk st' rsn =>
    have hm := sync_messages_model_eq start pages flag fuel s0 st' rsn hout
    have hp := sync_messages_model_props start pages flag fuel s0 _ hm
    have hbound := syncLoop_fetch_bound start pages flag T hmono hT fuel
      (initSt s0) st' rsn hout
    refine ⟨_, hm, hp.1, ?_, hp.2.1, hp.2.2.1, ?_⟩
    · show (finishSt st').fetches ≤ T
      rw [(finishSt_fields st').1]
      have hTT : (initSt s0).fetches + (T - (initSt s0).t) = T := by
        show 0 + (T - 0) = T
        omega
      omega
    · intro r hr
      rw [hp.2.1]
      exact save_batch_store_mem _ s0 r hr

/-- An endless source of good pages. -/
def cexPagesInf : Nat → Option Page :=
  fun _ => some { messages := [mA, mB], next_page_uri := some "u" }

/-- A source with exactly one page and no continuation token. -/
def cexPagesOne : Nat → Option Page := fun n =>
  if n = 0 then some { messages := [mA, mB], next_page_uri := none }
  else none

/-- A stop flag raised from clock instant 3 onward (mid-run, right after
the first page's two messages have been processed). -/
def cexFlag3 : Nat → Bool := fun t => decide (3 ≤ t)

/-- C5 counterexample: the run cancelled after its first page returns
exactly the same caller-visible result (True plus identical counters) as
an uncancelled run that simply ran out of pages — the code returns no
distinct cancelled status; only the model's instrumentation (the exit
reason) can tell the two runs apart. -/
theorem C5_counterexample :
    (sync_messages_model 50 cexPagesInf cexFlag3 10 emptyStore).map
        (fun r => (r.success, r.pages, r.fetched, r.saved))
      = some (true, 1, 2, 2) ∧
    (sync_messages_model 50 cexPagesOne cexFlagF 10 emptyStore).map
        (fun r => (r.success, r.pages, r.fetched, r.saved))
      = some (true, 1, 2, 2) ∧
    (sync_messages_model 50 cexPagesInf cexFlag3 10 emptyStore).map
        (fun r => r.reason) = some ExitReason.cancelled ∧
    (sync_messages_model 50 cexPagesOne cexFlagF 10 emptyStore).map
        (fun r => r.reason) = some ExitReason.noNext := by
  decide

/-- C5 witness: the amended theorem applied to the endless source with
the flag raised from instant 3: the run succeeds with at most 3 fetches. -/
theorem C5_cancellation_witness :
    (sync_messages_model 50 cexPagesInf cexFlag3 10 emptyStore).map
        (fun r => (r.success, decide (r.fetches ≤ 3))) = some (true, true) := by
  have hmono : ∀ t, cexFlag3 t = true → cexFlag3 (t + 1) = true := by
    intro t ht
    simp only [cexFlag3, decide_eq_true_eq] at ht ⊢
    omega
  obtain ⟨res, hres, h1, h2, h3, h4, h5⟩ :=
    C5_cancellation 50 cexPagesInf cexFlag3 3 10 emptyStore hmono rfl
      (by omega)
  rw [hres]
  show some (res.success, decide (res.fetches ≤ 3)) = some (true, true)
  rw [h1, decide_eq_true h2]

/-- C6: a fetched record whose parsed created_at falls strictly before
the exact start boundary is silently discarded by processMsg (a skip, not
an error — there is no per-record error path) and never reaches the
store: every record a run buffers or flushes passed the boundary filter,
and any store cell a run changes was written by such a record. -/
theorem C6_boundary_filter (start : Int) (m : RawMsg) (d : Int)
    (h1 : parse_signalwire_date m.date_created = some d) (h2 : d < start) :
    processMsg start m = none ∧
    ∀ (pages : Nat → Option Page) (flag : Nat → Bool) (fuel : Nat)
      (s0 : Store) (res : SyncResult),
      sync_messages_model start pages flag fuel s0 = some res →
      (∀ r ∈ res.processedAll, recOK start r) ∧
      ∀ i, ¬ res.store i = s0 i → ∃ r ∈ res.processedAll, r.id = i := by
  constructor
  · simp [processMsg, h1, h2]
  · intro pages flag fuel s0 res hres
    have hp := sync_messages_model_props start pages flag fuel s0 res hres
    refine ⟨hp.2.2.2, ?_⟩
    intro i hi
    apply save_batch_store_diff res.processedAll s0 i
    rw [← hp.2.1]
    exact hi

/-- A message created at instant 10, before the start boundary 50, as the
day-granularity API filter may still return it. -/
def m6 : RawMsg := { mA with date_created := RawDate.rfc 10 }

/-- C6 witness: the message created at 10 is dropped by a sync whose
exact boundary is 50. -/
theorem C6_boundary_filter_witness : processMsg 50 m6 = none :=
  (C6_boundary_filter 50 m6 10 rfl (by decide)).1

/-- C10: a fetched record whose created_at string fails to parse bypasses
the start-boundary filter entirely: it is kept (not skipped), counted as
fetched, and appended to the batch with date_created = None rather than
the current time. -/
theorem C10_unparsable_bypass (start : Int) (m : RawMsg)
    (h : parse_signalwire_date m.date_created = none) :
    ∃ r, processMsg start m = some r ∧ r.date_created = none ∧
      ∀ (flag : Nat → Bool) (st : SyncSt), flag st.t = false →
        (procMsgs start flag [m] st).fetched = st.fetched + 1 ∧
        r ∈ (procMsgs start flag [m] st).done
            ++ (procMsgs start flag [m] st).batch := by
  have hp : processMsg start m
      = some (mkSyncRec m none (parse_signalwire_date m.date_sent)) := by
    simp [processMsg, h]
  refine ⟨mkSyncRec m none (parse_signalwire_date m.date_sent), hp, rfl, ?_⟩
  intro flag st hf
  rw [procMsgs_keep start flag m [] st _ hf hp, procMsgs_nil]
  by_cases hb : batch_size
      ≤ (st.batch ++ [mkSyncRec m none (parse_signalwire_date m.date_sent)]).length
  · rw [if_pos hb]
    exact ⟨rfl, by simp [flushSt, bumpSt]⟩
  · rw [if_neg hb]
    exact ⟨rfl, by simp [bumpSt]⟩

/-- A message whose created_at string neither date parser accepts. -/
def m10 : RawMsg := { mA with date_created := RawDate.bad }

/-- C10 witness: the unparsable message m10 yields a record whose
date_created is None at start boundary 50. -/
theorem C10_unparsable_bypass_witness :
    (processMsg 50 m10).map Rec.date_created = some none := by
  obtain ⟨r, h1, h2, h3⟩ := C10_unparsable_bypass 50 m10 rfl
  rw [h1]
  show some r.date_created = some none
  rw [h2]

/-- datetime.fromisoformat as trigger_sync uses it (app.py lines 670-671):
an absent value is guarded to None; only ISO strings parse; anything else
raises (the record is then dropped by the surrounding try/except). -/
def isoParse : RawDate → Option (Option Int)
  | RawDate.missing => some none
  | RawDate.iso t => some (some t)
  | RawDate.rfc _ => none
  | RawDate.bad => none

/-- int(msg['error_code']) as trigger_sync uses it (app.py line 675):
absent is guarded to None; a malformed value raises. -/
def intParse : RawNum → Option (Option Int)
  | RawNum.missing => some none
  | RawNum.malformed => none
  | RawNum.num v => some (some v)

/-- float(msg['price']) as trigger_sync uses it (app.py line 679): absent
is guarded to 0; the sign is kept; a malformed value raises. -/
def triggerPrice : RawNum → Option Int
  | RawNum.missing => some 0
  | RawNum.malformed => none
  | RawNum.num v => some v

/-- The SMSLog row trigger_sync constructs (app.py lines 668-680); None
when any conversion raises (the except branch skips the record without
counting it). -/
def trigger_build_row (m : RawMsg) : Option Rec :=
  match isoParse m.date_created, isoParse m.date_sent,
      intParse m.error_code, triggerPrice m.price with
  | some dc, some ds, some ec, some p =>
    some { id := m.sid, date_created := dc, date_sent := ds,
           to_number := m.to_num, from_number := m.from_num,
           status := m.status, error_code := ec,
           error_message := m.error_message, direction := m.direction,
           price := p, body := m.body }
  | _, _, _, _ => none

/-- The save loop of trigger_sync (app.py lines 656-686): existing ids
are collected from the store once up front; a message whose sid is among
them is skipped and counted; otherwise a row is built and inserted (or
dropped on a parse error). The accumulator is (saved, skipped, store). -/
def triggerSaveGo (s0 : Store) :
    List RawMsg → Nat × Nat × Store → Nat × Nat × Store
  | [], acc => acc
  | m :: rest, (saved, skipped, s) =>
    if (s0 m.sid).isSome then triggerSaveGo s0 rest (saved, skipped + 1, s)
    else
      match trigger_build_row m with
      | some row =>
        triggerSaveGo s0 rest
          (saved + 1, skipped, fun j => if j = m.sid then some row else s j)
      | none => triggerSaveGo s0 rest (saved, skipped, s)

/-- The whole save phase of trigger_sync over the fetched messages. -/
def trigger_save (s0 : Store) (msgs : List RawMsg) : Nat × Nat × Store :=
  triggerSaveGo s0 msgs (0, 0, s0)

lemma triggerSaveGo_props (s0 : Store) :
    ∀ (msgs : List RawMsg) (saved skipped : Nat) (s : Store),
      (∀ i, (s0 i).isSome → s i = s0 i) →
      (∀ i, (s0 i).isSome →
        (triggerSaveGo s0 msgs (saved, skipped, s)).2.2 i = s0 i) ∧
      (triggerSaveGo s0 msgs (saved, skipped, s)).2.1
        = skipped + (msgs.filter (fun m => (s0 m.sid).isSome)).length ∧
      (∀ i, ¬ (triggerSaveGo s0 msgs (saved, skipped, s)).2.2 i = s i →
        (s0 i).isSome = false ∧ ∃ m ∈ msgs, m.sid = i) := by
  intro msgs
  induction msgs with
  | nil =>
    intro saved skipped s hpre
    refine ⟨fun i hi => hpre i hi, by simp [triggerSaveGo], ?_⟩
    intro i hi
    exact absurd rfl hi
  | cons m rest ih =>
    intro saved skipped s hpre
    by_cases hm : (s0 m.sid).isSome
    · have hstep : triggerSaveGo s0 (m :: rest) (saved, skipped, s)
          = triggerSaveGo s0 rest (saved, skipped + 1, s) := by
        simp [triggerSaveGo, hm]
      obtain ⟨i1, i2, i3⟩ := ih saved (skipped + 1) s hpre
      rw [hstep]
      refine ⟨i1, ?_, ?_⟩
      · rw [i2]
        have hfil : (m :: rest).filter (fun m => (s0 m.sid).isSome)
            = m :: rest.filter (fun m => (s0 m.sid).isSome) := by
          simp [List.filter_cons, hm]
        rw [hfil, List.length_cons]
        omega
      · intro i hi
        obtain ⟨ha, mm, hmm, hsid⟩ := i3 i hi
        exact ⟨ha, mm, List.mem_cons_of_mem m hmm, hsid⟩
    · have hm' : (s0 m.sid).isSome = false := by
        cases h : (s0 m.sid).isSome
        · rfl
        · exact absurd h hm
      have hfil : (m :: rest).filter (fun m => (s0 m.sid).isSome)
          = rest.filter (fun m => (s0 m.sid).isSome) := by
        simp [List.filter_cons, hm']
      cases hrow : trigger_build_row m with
      | none =>
        have hstep : triggerSaveGo s0 (m :: rest) (saved, skipped, s)
            = triggerSaveGo s0 rest (saved, skipped, s) := by
          simp [triggerSaveGo, hm', hrow]
        obtain ⟨i1, i2, i3⟩ := ih saved skipped s hpre
        rw [hstep, hfil]
        refine ⟨i1, i2, ?_⟩
        intro i hi
        obtain ⟨ha, mm, hmm, hsid⟩ := i3 i hi
        exact ⟨ha, mm, List.mem_cons_of_mem m hmm, hsid⟩
      | some row =>
        have hstep : triggerSaveGo s0 (m :: rest) (saved, skipped, s)
            = triggerSaveGo s0 rest
                (saved + 1, skipped,
                  fun j => if j = m.sid then some row else s j) := by
          simp [triggerSaveGo, hm', hrow]
        have hpre' : ∀ i, (s0 i).isSome →
            (fun j => if j = m.sid then some row else s j) i = s0 i := by
          intro i hi
          by_cases hji : i = m.sid
          · rw [hji] at hi
            rw [hm'] at hi
            cases hi
          · show (if i = m.sid then some row else s i) = s0 i
            rw [if_neg hji]
            exact hpre i hi
        obtain ⟨i1, i2, i3⟩ := ih (saved + 1) skipped
          (fun j => if j = m.sid then some row else s j) hpre'
        rw [hstep, hfil]
        refine ⟨i1, i2, ?_⟩
        intro i hi
        by_cases hch : (triggerSaveGo s0 rest
            (saved + 1, skipped, fun j => if j = m.sid then some row else s j)).2.2 i
            = (fun j => if j = m.sid then some row else s j) i
        · by_cases hji : i = m.sid
          · subst hji
            exact ⟨hm', m, List.mem_cons_self m rest, rfl⟩
          · exfalso
            apply hi
            rw [hch]
            show (if i = m.sid then some row else s i) = s i
            rw [if_neg hji]
        · obtain ⟨ha, mm, hmm, hsid⟩ := i3 i hch
          exact ⟨ha, mm, List.mem_cons_of_mem m hmm, hsid⟩

/-- C9: in trigger_sync, a fetched message whose id already exists in the
store is skipped entirely and counted in the skipped counter; existing
rows are left completely unchanged (no merge of mutable fields); and any
store cell the save phase changes was previously unoccupied and was
written under the sid of one of the fetched messages. -/
theorem C9_trigger_skip_existing (s0 : Store) (msgs : List RawMsg) :
    (∀ i, (s0 i).isSome → (trigger_save s0 msgs).2.2 i = s0 i) ∧
    (trigger_save s0 msgs).2.1
      = (msgs.filter (fun m => (s0 m.sid).isSome)).length ∧
    (∀ i, ¬ (trigger_save s0 msgs).2.2 i = s0 i →
      s0 i = none ∧ ∃ m ∈ msgs, m.sid = i) := by
  have H := triggerSaveGo_props s0 msgs 0 0 s0 (fun i _ => rfl)
  refine ⟨H.1, ?_, ?_⟩
  · show (triggerSaveGo s0 msgs (0, 0, s0)).2.1 = _
    rw [H.2.1]
    omega
  · intro i hi
    obtain ⟨h1, h2⟩ := H.2.2 i hi
    refine ⟨?_, h2⟩
    cases hs : s0 i with
    | none => rfl
    | some v =>
      rw [hs] at h1
      exact absurd h1 (by simp)

/-- A fetched message whose sid "m1" already sits in the store. -/
def m9a : RawMsg := { mA with sid := "m1" }

/-- A fetched message with a fresh sid and an ISO created_at. -/
def m9b : RawMsg :=
  { mA with sid := "n1", date_created := RawDate.iso 100 }

/-- C9 witness: saving [m9a, m9b] against the one-row store holding wOld
under "m1" leaves the "m1" row untouched and counts exactly one skip. -/
theorem C9_trigger_skip_existing_witness :
    (trigger_save wStore [m9a, m9b]).2.2 "m1" = wStore "m1" ∧
    (trigger_save wStore [m9a, m9b]).2.1 = 1 := by
  have H := C9_trigger_skip_existing wStore [m9a, m9b]
  constructor
  · exact H.1 "m1" rfl
  · rw [H.2.1]
    decide
